import Mathlib

/-!
Verification development for the scheduling and argument-collection core of
rashpile/pako-telegram.

Shallow embedding conventions:
* Instants are seconds on a fixed-offset local timeline (`Nat`); the Go zero
  `time.Time` is modelled as `0`, so `lastRun.IsZero()` becomes `lastRun = 0`.
* `time.Duration` fields whose sign can matter (the argument-collection
  timeout, read straight from YAML) are modelled as `Int`; the scheduler
  interval, which the code only ever compares with `> 0`, is a `Nat`.
* Go maps are modelled as functions into `Option`; a map write is a pointwise
  update, a `delete` stores `none`.
* Fallible parsing returns `Except String`, carrying the Go error message.
-/

namespace Pako

/-- Pointwise update of a map modelled as a function into `Option`. -/
def setKey {α β : Type} [DecidableEq α] (m : α → Option β) (k : α) (v : Option β) :
    α → Option β :=
  fun x => if x = k then v else m x

namespace Scheduler

/-- `TimeOfDay` from scheduler.go: a wall-clock time in HH:MM form. -/
structure TimeOfDay where
  hour : Nat
  minute : Nat
  deriving DecidableEq, Repr

/-- One calendar day in seconds (the code adds `24 * time.Hour`). -/
def secondsPerDay : Nat := 86400

/-- Seconds past local midnight denoted by a `TimeOfDay`. -/
def todSeconds (t : TimeOfDay) : Nat := t.hour * 3600 + t.minute * 60

/-- `nextTimeOfDay` from scheduler.go.  `time.Date(y, m, d, hour, minute, 0, 0)`
for `now`'s calendar day is start-of-day plus `todSeconds`; the code rolls a
day forward (`next.Add(24 * time.Hour)`) when `!next.After(now)`. -/
def nextTimeOfDay (now : Nat) (tod : TimeOfDay) : Nat :=
  let next := now / secondsPerDay * secondsPerDay + todSeconds tod
  if now < next then next else next + secondsPerDay

/-- `ScheduledCommand` from scheduler.go.  The executable payload and the
`Command` reference are irrelevant to the scheduling decisions and elided;
`lastRun = 0` models the zero `time.Time`. -/
structure ScheduledCommand where
  name : String
  times : List TimeOfDay
  interval : Nat
  initialPaused : Bool
  lastRun : Nat
  deriving DecidableEq, Repr

/-- The scheduling-relevant state of `Scheduler`: the command collection and
the paused-name set (a Go `map[string]bool`, absent keys reading `false`). -/
structure SchedulerState where
  commands : List ScheduledCommand
  paused : String → Bool

/-- The candidate fire times one command contributes inside the
`nextExecution` loop: a paused command is skipped; an interval command
(`Interval > 0`) contributes `now` on a zero `lastRun` and `lastRun + interval`
otherwise (and its `Times` are never consulted — the loop `continue`s); any
other command contributes one candidate per configured time of day. -/
def candidateTimes (now : Nat) (paused : String → Bool) (c : ScheduledCommand) :
    List Nat :=
  if paused c.name then []
  else if 0 < c.interval then
    [if c.lastRun = 0 then now else c.lastRun + c.interval]
  else c.times.map (nextTimeOfDay now)

/-- The accumulator step of the `nextExecution` loop: `earliest.IsZero() ||
nextRun.Before(earliest)` installs the new candidate together with its
command. -/
def schedStep (cmd : ScheduledCommand) (acc : Nat × Option ScheduledCommand)
    (t : Nat) : Nat × Option ScheduledCommand :=
  if acc.1 = 0 ∨ t < acc.1 then (t, some cmd) else acc

/-- `nextExecution` from scheduler.go: the earliest candidate across all
commands, paired with the command holding it; `(0, none)` — the zero
`time.Time` and nil — when the collection is empty. -/
def nextExecution (s : SchedulerState) (now : Nat) :
    Nat × Option ScheduledCommand :=
  if s.commands = [] then (0, none)
  else s.commands.foldl
    (fun acc c => (candidateTimes now s.paused c).foldl (schedStep c) acc)
    (0, none)

/-- Lookup by name returning the last match, mirroring how `UpdateCommands`
builds its `existing` map (later entries of the old slice overwrite earlier
ones). -/
def findLast (n : String) : List ScheduledCommand → Option ScheduledCommand
  | [] => none
  | c :: rest =>
    match findLast n rest with
    | some r => some r
    | none => if c.name = n then some c else none

/-- The `lastRun`-carryover effect of the `UpdateCommands` loop: an incoming
command matched by name against the old collection inherits that command's
`lastRun`. -/
def carryLastRun (old : List ScheduledCommand) (cmds : List ScheduledCommand) :
    List ScheduledCommand :=
  cmds.map fun c =>
    match findLast c.name old with
    | some o => { c with lastRun := o.lastRun }
    | none => c

/-- The paused-set effect of the `UpdateCommands` loop: a genuinely new
command (no old command of that name) with `InitialPaused` set is inserted
into the paused map. -/
def updatePausedNames (old : List ScheduledCommand) :
    List ScheduledCommand → (String → Bool) → (String → Bool)
  | [], p => p
  | c :: rest, p =>
    updatePausedNames old rest
      (if (findLast c.name old).isSome then p
       else if c.initialPaused then fun n => if n = c.name then true else p n
       else p)

/-- `UpdateCommands` from scheduler.go.  The Go loop walks the incoming slice
once, both patching `lastRun` and growing the paused set; the two effects are
independent (the `existing` map is snapshotted before the loop), so they are
embedded as the two loop projections above. -/
def UpdateCommands (s : SchedulerState) (cmds : List ScheduledCommand) :
    SchedulerState :=
  { commands := carryLastRun s.commands cmds
    paused := updatePausedNames s.commands cmds s.paused }

/-- The `nextExecution` accumulator step on a (candidate, command) pair. -/
def schedStepP (acc : Nat × Option ScheduledCommand)
    (p : Nat × ScheduledCommand) : Nat × Option ScheduledCommand :=
  schedStep p.2 acc p.1

/-- All (candidate, command) pairs the `nextExecution` loop examines, in
examination order. -/
def schedPairs (now : Nat) (s : SchedulerState) :
    List (Nat × ScheduledCommand) :=
  s.commands.flatMap fun c =>
    (candidateTimes now s.paused c).map fun t => (t, c)

/-- An ASCII digit byte. -/
def isDigitByte (n : Nat) : Prop := 48 ≤ n ∧ n ≤ 57

instance (n : Nat) : Decidable (isDigitByte n) := by
  unfold isDigitByte; infer_instance

/-- `ParseTime` from scheduler.go over the byte sequence of the input string
(byte 58 is the colon).  The Go code first rejects `len(s) != 5 || s[2] != ':'`,
then rejects any non-digit byte at the remaining positions, then range-checks
the assembled hour and minute. -/
def ParseTime (s : List Nat) : Except String TimeOfDay :=
  match s with
  | [a, b, c, d, e] =>
    if c ≠ 58 then Except.error "must be in HH:MM format"
    else if ¬ isDigitByte a then Except.error "must be in HH:MM format"
    else if ¬ isDigitByte b then Except.error "must be in HH:MM format"
    else if ¬ isDigitByte d then Except.error "must be in HH:MM format"
    else if ¬ isDigitByte e then Except.error "must be in HH:MM format"
    else
      let hour := (a - 48) * 10 + (b - 48)
      let minute := (d - 48) * 10 + (e - 48)
      if 23 < hour then Except.error "hour must be 00-23"
      else if 59 < minute then Except.error "minute must be 00-59"
      else Except.ok ⟨hour, minute⟩
  | _ => Except.error "must be in HH:MM format"

/-- Whether a `ParseTime` result is the error case. -/
def parseFailed (r : Except String TimeOfDay) : Prop :=
  match r with
  | Except.error _ => True
  | Except.ok _ => False

instance (r : Except String TimeOfDay) : Decidable (parseFailed r) := by
  unfold parseFailed; cases r <;> infer_instance

/-- The zero-padded five-byte rendering `HH:MM` of an hour/minute pair. -/
def encodeHHMM (h m : Nat) : List Nat :=
  [48 + h / 10, 48 + h % 10, 58, 48 + m / 10, 48 + m % 10]

/-- Hour assembled from bytes 0 and 1, as the code computes it. -/
def hourOf (s : List Nat) : Nat := (s.getD 0 0 - 48) * 10 + (s.getD 1 0 - 48)

/-- Minute assembled from bytes 3 and 4, as the code computes it. -/
def minuteOf (s : List Nat) : Nat := (s.getD 3 0 - 48) * 10 + (s.getD 4 0 - 48)

/-- The rejection condition the spec states for `parseTimeOfDay`: wrong
length, wrong separator, a non-digit in any other position, or an
out-of-range hour or minute. -/
def badTime (s : List Nat) : Prop :=
  s.length ≠ 5 ∨ s.getD 2 0 ≠ 58 ∨
    ¬ (isDigitByte (s.getD 0 0) ∧ isDigitByte (s.getD 1 0) ∧
        isDigitByte (s.getD 3 0) ∧ isDigitByte (s.getD 4 0)) ∨
    23 < hourOf s ∨ 59 < minuteOf s

end Scheduler

namespace Bot

/-- The code points Go's `unicode.IsSpace` (the White_Space property) accepts;
`strings.TrimSpace` strips these from both ends. -/
def isSpaceGo (c : Char) : Bool :=
  let n := c.toNat
  n == 9 || n == 10 || n == 11 || n == 12 || n == 13 || n == 32 ||
    n == 133 || n == 160 || n == 5760 ||
    (decide (8192 ≤ n) && decide (n ≤ 8202)) ||
    n == 8232 || n == 8233 || n == 8239 || n == 8287 || n == 12288

/-- `strings.TrimSpace`. -/
def trimSpace (s : String) : String :=
  ⟨((s.toList.dropWhile isSpaceGo).reverse.dropWhile isSpaceGo).reverse⟩

/-- `strings.ToLower` as used here.  Only comparisons against the ASCII
literals of `validateArgument` are observed, and on those the per-character
simple lowercase mapping agrees with ASCII lowering (no code point outside
ASCII has a simple lowercase mapping landing in the compared words). -/
def toLowerGo (s : String) : String := ⟨s.toList.map Char.toLower⟩

/-- Numeric value of a decimal digit sequence. -/
def digitsVal (l : List Char) : Nat :=
  l.foldl (fun a c => a * 10 + (c.toNat - 48)) 0

/-- Success predicate of `strconv.Atoi` on a 64-bit platform: an optional
sign, at least one ASCII digit, nothing else, and a value within the `int64`
range. -/
def atoiOk (s : String) : Bool :=
  match s.toList with
  | [] => false
  | c :: rest =>
    if c = '+' then
      !rest.isEmpty && rest.all Char.isDigit &&
        decide (digitsVal rest ≤ 9223372036854775807)
    else if c = '-' then
      !rest.isEmpty && rest.all Char.isDigit &&
        decide (digitsVal rest ≤ 9223372036854775808)
    else
      (c :: rest).all Char.isDigit &&
        decide (digitsVal (c :: rest) ≤ 9223372036854775807)

/-- `ArgumentDef` from internal/command/yaml.go. -/
structure ArgumentDef where
  name : String
  description : String
  required : Bool
  type : String
  choices : List String
  default : String
  sensitive : Bool
  deriving DecidableEq, Repr

/-- The slice of `YAMLCommand` the argument collector reads: its argument
definitions and its argument-collection timeout (a `time.Duration`, here in
seconds, sign preserved). -/
structure YAMLCommand where
  arguments : List ArgumentDef
  argumentTimeout : Int
  deriving DecidableEq, Repr

/-- `ArgumentSession` from internal/bot/arguments.go. -/
structure ArgumentSession where
  chatID : Int
  command : YAMLCommand
  arguments : List ArgumentDef
  collected : String → Option String
  currentIdx : Nat
  startedAt : Nat
  timeoutDur : Int
  lastPromptMsgID : Int

/-- `ArgumentCollector`: the session map plus the store-wide default
timeout. -/
structure ArgumentCollector where
  sessions : Int → Option ArgumentSession
  defaultTimeout : Int

/-- `defaultArgumentTimeout` (120 seconds). -/
def defaultArgumentTimeout : Int := 120

/-- `CurrentArg`: the argument at the cursor, `none` past the end. -/
def ArgumentSession.CurrentArg (s : ArgumentSession) : Option ArgumentDef :=
  if s.arguments.length ≤ s.currentIdx then none
  else s.arguments.get? s.currentIdx

/-- `IsComplete`: the cursor has reached the end of the to-prompt list. -/
def ArgumentSession.IsComplete (s : ArgumentSession) : Bool :=
  decide (s.arguments.length ≤ s.currentIdx)

/-- `IsExpired`: `time.Since(StartedAt) > TimeoutDur`, at the explicit
instant `now`. -/
def ArgumentSession.IsExpired (s : ArgumentSession) (now : Nat) : Bool :=
  decide (s.timeoutDur < (now : Int) - (s.startedAt : Int))

/-- The keys of the `valid` lookup map in the bool branch of
`validateArgument`. -/
def boolWords : List String := ["true", "false", "yes", "no", "1", "0"]

/-- `validateArgument` from internal/bot/arguments.go; `none` is acceptance,
`some msg` the returned error's message.  The Go `switch` on disjoint string
cases is an if-chain; the `string`/empty/default cases all accept. -/
def validateArgument (arg : ArgumentDef) (input : String) : Option String :=
  if arg.required = true ∧ trimSpace input = "" then
    some "This field is required"
  else if input = "" then none
  else if arg.type = "int" then
    if atoiOk input then none else some "Please enter a valid integer"
  else if arg.type = "bool" then
    if toLowerGo (trimSpace input) ∈ boolWords then none
    else some "Please enter yes/no, true/false, or 1/0"
  else if arg.type = "choice" then
    if 0 < arg.choices.length ∧ input ∉ arg.choices then
      some ("Please select one of: " ++ String.intercalate ", " arg.choices)
    else none
  else none

/-- The `StartSession` partition condition: a non-empty default on a
non-required argument is auto-resolved. -/
def autoResolved (a : ArgumentDef) : Bool := a.default != "" && !a.required

/-- The `collected` effect of the `StartSession` partition loop: every
auto-resolved argument's default is written under its name, in order. -/
def buildCollected : List ArgumentDef → (String → Option String) →
    (String → Option String)
  | [], m => m
  | a :: rest, m =>
    if autoResolved a then
      buildCollected rest (setKey m a.name (some a.default))
    else buildCollected rest m

/-- The `toPrompt` effect of the `StartSession` partition loop: the
non-auto-resolved arguments in their original order. -/
def buildToPrompt : List ArgumentDef → List ArgumentDef
  | [] => []
  | a :: rest =>
    if autoResolved a then buildToPrompt rest
    else a :: buildToPrompt rest

/-- `StartSession` from internal/bot/arguments.go, at explicit instant
`now`. -/
def StartSession (c : ArgumentCollector) (now : Nat) (chatID : Int)
    (cmd : YAMLCommand) : ArgumentCollector × ArgumentSession :=
  let afterDelete := setKey c.sessions chatID none
  let timeout := if cmd.argumentTimeout = 0 then c.defaultTimeout
    else cmd.argumentTimeout
  let session : ArgumentSession :=
    { chatID := chatID
      command := cmd
      arguments := buildToPrompt cmd.arguments
      collected := buildCollected cmd.arguments (fun _ => none)
      currentIdx := 0
      startedAt := now
      timeoutDur := timeout
      lastPromptMsgID := 0 }
  ({ c with sessions := setKey afterDelete chatID (some session) }, session)

/-- `GetSession`: the stored session unless absent or expired. -/
def GetSession (c : ArgumentCollector) (now : Nat) (chatID : Int) :
    Option ArgumentSession :=
  match c.sessions chatID with
  | none => none
  | some s => if s.IsExpired now then none else some s

/-- `ProcessInput` from internal/bot/arguments.go: the returned message
paired with the updated store. -/
def ProcessInput (c : ArgumentCollector) (now : Nat) (chatID : Int)
    (input : String) : String × ArgumentCollector :=
  match c.sessions chatID with
  | none => ("No active argument collection session.", c)
  | some s =>
    if s.IsExpired now then ("No active argument collection session.", c)
    else
      match s.CurrentArg with
      | none => ("", c)
      | some arg =>
        match validateArgument arg input with
        | some err => (err, c)
        | none =>
          let s2 : ArgumentSession :=
            { s with
              collected := setKey s.collected arg.name (some input)
              currentIdx := s.currentIdx + 1 }
          ("", { c with sessions := setKey c.sessions chatID (some s2) })

/-- `CompleteSession`: the collected map and command reference of the stored
session (expiry never consulted), with the session removed; `(none, none)`
and an unchanged store when absent. -/
def CompleteSession (c : ArgumentCollector) (chatID : Int) :
    (Option (String → Option String) × Option YAMLCommand) ×
      ArgumentCollector :=
  match c.sessions chatID with
  | none => ((none, none), c)
  | some s =>
    ((some s.collected, some s.command),
      { c with sessions := setKey c.sessions chatID none })

/-- `CancelSession`: unconditional removal. -/
def CancelSession (c : ArgumentCollector) (chatID : Int) : ArgumentCollector :=
  { c with sessions := setKey c.sessions chatID none }

/-- Concrete fixture: a required int argument named "n". -/
def argN : ArgumentDef := ⟨"n", "", true, "int", [], "", false⟩

/-- Concrete fixture: a command prompting for `argN`, no timeout override. -/
def cmdN : YAMLCommand := ⟨[argN], 0⟩

/-- Concrete fixture: a fresh session for `cmdN` started at instant 0 with a
120-second timeout. -/
def sessionN : ArgumentSession := ⟨1, cmdN, [argN], fun _ => none, 0, 0, 120, 0⟩

/-- Concrete fixture: a store holding `sessionN` under chat key 1. -/
def storeN : ArgumentCollector :=
  ⟨fun k => if k = 1 then some sessionN else none, 120⟩

/-- Concrete fixture: `sessionN` with its cursor already past the end. -/
def sessionDone : ArgumentSession :=
  ⟨1, cmdN, [argN], fun _ => none, 1, 0, 120, 0⟩

/-- Concrete fixture: a store holding the completed `sessionDone`. -/
def storeDone : ArgumentCollector :=
  ⟨fun k => if k = 1 then some sessionDone else none, 120⟩

end Bot

end Pako

namespace Pako.Scheduler

lemma todSeconds_lt (tod : TimeOfDay) (hh : tod.hour ≤ 23)
    (hm : tod.minute ≤ 59) : todSeconds tod < 86400 := by
  unfold todSeconds; omega

lemma nextTimeOfDay_eq (now : Nat) (tod : TimeOfDay) :
    nextTimeOfDay now tod =
      if now < now / 86400 * 86400 + todSeconds tod then
        now / 86400 * 86400 + todSeconds tod
      else now / 86400 * 86400 + todSeconds tod + 86400 := rfl

/-- C5: `nextOccurrence(now, tod)` is today's instant at `tod` (same calendar
day, at exactly hour:minute) when that instant is strictly after `now`
(equivalently, when `now`'s seconds-of-day are before `tod`); otherwise it is
the same hour:minute on the following calendar day, still strictly after
`now`; in particular exact equality of `now`'s time-of-day with `tod` rolls a
full day forward. -/
theorem nextTimeOfDay_spec (now : Nat) (tod : TimeOfDay)
    (hh : tod.hour ≤ 23) (hm : tod.minute ≤ 59) :
    (now % secondsPerDay < todSeconds tod →
      nextTimeOfDay now tod / secondsPerDay = now / secondsPerDay ∧
      nextTimeOfDay now tod % secondsPerDay = todSeconds tod ∧
      now < nextTimeOfDay now tod) ∧
    (todSeconds tod ≤ now % secondsPerDay →
      nextTimeOfDay now tod / secondsPerDay = now / secondsPerDay + 1 ∧
      nextTimeOfDay now tod % secondsPerDay = todSeconds tod ∧
      now < nextTimeOfDay now tod) ∧
    (now % secondsPerDay = todSeconds tod →
      nextTimeOfDay now tod = now + secondsPerDay) := by
  have ht := todSeconds_lt tod hh hm
  rw [nextTimeOfDay_eq]
  simp only [secondsPerDay]
  split_ifs with hlt <;>
    refine ⟨fun h1 => ⟨?_, ?_, ?_⟩, fun h2 => ⟨?_, ?_, ?_⟩, fun h3 => ?_⟩ <;>
    omega

/-- Witness for C5 at `now = 90000` (01:00:00 on day 1) and `tod = 01:00`:
the hypotheses hold and the computed occurrence is the same calendar day
rolled one day forward on exact equality. -/
theorem nextTimeOfDay_spec_witness :
    (90000 % secondsPerDay = todSeconds ⟨1, 0⟩ →
      nextTimeOfDay 90000 ⟨1, 0⟩ = 90000 + secondsPerDay) ∧
    nextTimeOfDay 90000 ⟨1, 0⟩ = 176400 :=
  ⟨(nextTimeOfDay_spec 90000 ⟨1, 0⟩ (by decide) (by decide)).2.2, by decide⟩

lemma parseTime_fail_iff (s : List Nat) :
    parseFailed (ParseTime s) ↔ badTime s := by
  rcases s with _ | ⟨a, _ | ⟨b, _ | ⟨c, _ | ⟨d, _ | ⟨e, _ | ⟨f, rest⟩⟩⟩⟩⟩⟩
  · simp [ParseTime, parseFailed, badTime]
  · simp [ParseTime, parseFailed, badTime]
  · simp [ParseTime, parseFailed, badTime]
  · simp [ParseTime, parseFailed, badTime]
  · simp [ParseTime, parseFailed, badTime]
  · have g0 : [a, b, c, d, e].getD 0 0 = a := rfl
    have g1 : [a, b, c, d, e].getD 1 0 = b := rfl
    have g2 : [a, b, c, d, e].getD 2 0 = c := rfl
    have g3 : [a, b, c, d, e].getD 3 0 = d := rfl
    have g4 : [a, b, c, d, e].getD 4 0 = e := rfl
    have glen : [a, b, c, d, e].length = 5 := rfl
    simp only [ParseTime, badTime, hourOf, minuteOf, isDigitByte, g0, g1, g2,
      g3, g4, glen]
    split_ifs with h1 h2 h3 h4 h5 h6 h7 <;>
      simp only [parseFailed, true_iff, false_iff] <;> omega
  · have glen : (a :: b :: c :: d :: e :: f :: rest).length =
        rest.length + 6 := by simp
    simp only [ParseTime, parseFailed, badTime, glen, true_iff]
    left
    omega

/-- C7: `parseTimeOfDay` accepts exactly the zero-padded five-byte `HH:MM`
pattern: every in-range hour/minute round-trips from its zero-padded
rendering, and an input fails exactly when its length is not 5, its third
byte is not a colon, any other byte is not an ASCII digit, or the assembled
hour or minute is out of range. -/
theorem parseTime_spec :
    (∀ h m, h ≤ 23 → m ≤ 59 →
      ParseTime (encodeHHMM h m) = Except.ok ⟨h, m⟩) ∧
    (∀ s, parseFailed (ParseTime s) ↔ badTime s) := by
  constructor
  · intro h m hh hm
    have e1 : (48 + h / 10 - 48) * 10 + (48 + h % 10 - 48) = h := by omega
    have e2 : (48 + m / 10 - 48) * 10 + (48 + m % 10 - 48) = m := by omega
    simp only [ParseTime, encodeHHMM, isDigitByte]
    split_ifs with h1 h2 h3 h4 h5 h6 h7 <;> first
      | (exfalso; omega)
      | (rw [e1, e2])
  · exact parseTime_fail_iff

/-- Witness for C7: "09:30" round-trips to (9, 30) via the theorem, and the
four-byte "9:00" (spec's running example) is rejected. -/
theorem parseTime_spec_witness :
    ParseTime (encodeHHMM 9 30) = Except.ok ⟨9, 30⟩ ∧
    (parseFailed (ParseTime [57, 58, 48, 48]) ↔ badTime [57, 58, 48, 48]) ∧
    parseFailed (ParseTime [57, 58, 48, 48]) :=
  ⟨parseTime_spec.1 9 30 (by decide) (by decide),
    parseTime_spec.2 [57, 58, 48, 48], by decide⟩

lemma nextTimeOfDay_pos (now : Nat) (tod : TimeOfDay) (h : 0 < now) :
    0 < nextTimeOfDay now tod := by
  rw [nextTimeOfDay_eq]; split_ifs <;> omega

lemma candidateTimes_pos (now : Nat) (paused : String → Bool)
    (c : ScheduledCommand) (hnow : 0 < now) :
    ∀ t ∈ candidateTimes now paused c, 0 < t := by
  intro t ht
  unfold candidateTimes at ht
  split_ifs at ht with hp hi hl
  · simp at ht
  · rw [List.mem_singleton] at ht; omega
  · rw [List.mem_singleton] at ht; omega
  · rw [List.mem_map] at ht
    obtain ⟨tod, _, rfl⟩ := ht
    exact nextTimeOfDay_pos now tod hnow

lemma foldl_schedStep_map (c : ScheduledCommand) (ts : List Nat)
    (acc : Nat × Option ScheduledCommand) :
    ts.foldl (schedStep c) acc =
      (ts.map fun t => (t, c)).foldl schedStepP acc := by
  rw [List.foldl_map]
  rfl

lemma nextExecution_eq_pairs (s : SchedulerState) (now : Nat)
    (h : s.commands ≠ []) :
    nextExecution s now = (schedPairs now s).foldl schedStepP (0, none) := by
  unfold nextExecution schedPairs
  rw [if_neg h]
  suffices H : ∀ (cmds : List ScheduledCommand)
      (acc : Nat × Option ScheduledCommand),
      cmds.foldl
          (fun acc c => (candidateTimes now s.paused c).foldl (schedStep c) acc)
          acc =
        (cmds.flatMap fun c =>
            (candidateTimes now s.paused c).map fun t => (t, c)).foldl
          schedStepP acc from H s.commands (0, none)
  intro cmds
  induction cmds with
  | nil => intro acc; rfl
  | cons c rest ih =>
    intro acc
    rw [List.flatMap_cons, List.foldl_append, ← foldl_schedStep_map,
      List.foldl_cons, ih]

lemma schedFold_go (ps : List (Nat × ScheduledCommand)) :
    ∀ acc : Nat × Option ScheduledCommand,
    (∀ p ∈ ps, 0 < p.1) → 0 < acc.1 →
    0 < (ps.foldl schedStepP acc).1 ∧
    (ps.foldl schedStepP acc).1 ≤ acc.1 ∧
    (∀ p ∈ ps, (ps.foldl schedStepP acc).1 ≤ p.1) ∧
    (ps.foldl schedStepP acc = acc ∨
      ∃ p ∈ ps, ps.foldl schedStepP acc = (p.1, some p.2)) := by
  induction ps with
  | nil =>
    intro acc hp hacc
    refine ⟨hacc, le_refl _, ?_, Or.inl rfl⟩
    intro p hp2
    simp at hp2
  | cons q rest ih =>
    intro acc hp hacc
    have hq : 0 < q.1 := hp q (by simp)
    rw [List.foldl_cons]
    by_cases hcond : acc.1 = 0 ∨ q.1 < acc.1
    · have hstep : schedStepP acc q = (q.1, some q.2) := by
        unfold schedStepP schedStep; rw [if_pos hcond]
      rw [hstep]
      obtain ⟨h0, hle, hall, hat⟩ :=
        ih (q.1, some q.2) (fun p hp2 => hp p (by simp [hp2])) hq
      have hlt : q.1 < acc.1 := hcond.resolve_left (by omega)
      refine ⟨h0, le_trans hle (le_of_lt hlt), ?_, ?_⟩
      · intro p hmem
        rcases List.mem_cons.mp hmem with rfl | hmem2
        · exact hle
        · exact hall p hmem2
      · rcases hat with heq | ⟨p, hmem, heq⟩
        · exact Or.inr ⟨q, by simp, heq⟩
        · exact Or.inr ⟨p, by simp [hmem], heq⟩
    · have hstep : schedStepP acc q = acc := by
        unfold schedStepP schedStep; rw [if_neg hcond]
      rw [hstep]
      obtain ⟨h0, hle, hall, hat⟩ :=
        ih acc (fun p hp2 => hp p (by simp [hp2])) hacc
      push_neg at hcond
      refine ⟨h0, hle, ?_, ?_⟩
      · intro p hmem
        rcases List.mem_cons.mp hmem with rfl | hmem2
        · exact le_trans hle hcond.2
        · exact hall p hmem2
      · rcases hat with heq | ⟨p, hmem, heq⟩
        · exact Or.inl heq
        · exact Or.inr ⟨p, by simp [hmem], heq⟩

lemma mem_schedPairs (now : Nat) (s : SchedulerState)
    (p : Nat × ScheduledCommand) :
    p ∈ schedPairs now s ↔
      p.2 ∈ s.commands ∧ p.1 ∈ candidateTimes now s.paused p.2 := by
  unfold schedPairs
  rw [List.mem_flatMap]
  constructor
  · rintro ⟨c, hc, hp⟩
    rw [List.mem_map] at hp
    obtain ⟨t, ht, rfl⟩ := hp
    exact ⟨hc, ht⟩
  · rintro ⟨h1, h2⟩
    exact ⟨p.2, h1, List.mem_map.mpr ⟨p.1, h2, rfl⟩⟩

/-- C1: `nextExecution` — a paused command contributes no candidate; a
non-paused interval-mode command (interval > 0) contributes `now` when its
`lastRun` is zero and `lastRun + interval` otherwise; a non-paused
time-of-day-mode command contributes `nextOccurrence(now, t)` for each of its
configured times (whose least element is the command's candidate); an empty
collection yields `(0, none)`; and whenever any candidate exists at all, the
returned pair is a candidate of the returned (non-paused, present) command
that is least among every command's candidates. -/
theorem nextExecution_spec (s : SchedulerState) (now : Nat) (hnow : 0 < now) :
    (s.commands = [] → nextExecution s now = (0, none)) ∧
    (∀ c : ScheduledCommand, s.paused c.name = true →
      candidateTimes now s.paused c = []) ∧
    (∀ c : ScheduledCommand, s.paused c.name = false → 0 < c.interval →
      c.lastRun = 0 → candidateTimes now s.paused c = [now]) ∧
    (∀ c : ScheduledCommand, s.paused c.name = false → 0 < c.interval →
      c.lastRun ≠ 0 →
      candidateTimes now s.paused c = [c.lastRun + c.interval]) ∧
    (∀ c : ScheduledCommand, s.paused c.name = false → c.interval = 0 →
      candidateTimes now s.paused c = c.times.map (nextTimeOfDay now)) ∧
    ((∃ c ∈ s.commands, candidateTimes now s.paused c ≠ []) →
      ∃ t c, nextExecution s now = (t, some c) ∧ c ∈ s.commands ∧
        s.paused c.name = false ∧ t ∈ candidateTimes now s.paused c ∧
        ∀ c2 ∈ s.commands, ∀ t2 ∈ candidateTimes now s.paused c2, t ≤ t2) := by
  have hpos : ∀ p ∈ schedPairs now s, 0 < p.1 := by
    intro p hp
    rw [mem_schedPairs] at hp
    exact candidateTimes_pos now s.paused p.2 hnow p.1 hp.2
  refine ⟨?_, ?_, ?_, ?_, ?_, ?_⟩
  · intro h; unfold nextExecution; rw [if_pos h]
  · intro c hc; simp [candidateTimes, hc]
  · intro c hc hi hl; simp [candidateTimes, hc, hi, hl]
  · intro c hc hi hl; simp [candidateTimes, hc, hi, hl]
  · intro c hc hi; simp [candidateTimes, hc, hi]
  · rintro ⟨c, hc, hne⟩
    have hcmds : s.commands ≠ [] := List.ne_nil_of_mem hc
    obtain ⟨t0, ht0⟩ := List.exists_mem_of_ne_nil _ hne
    have hpair : (t0, c) ∈ schedPairs now s :=
      (mem_schedPairs now s (t0, c)).mpr ⟨hc, ht0⟩
    rcases hq : schedPairs now s with _ | ⟨q, rest⟩
    · rw [hq] at hpair; simp at hpair
    · have hrw := nextExecution_eq_pairs s now hcmds
      rw [hq, List.foldl_cons] at hrw
      have hstep : schedStepP (0, none) q = (q.1, some q.2) := by
        unfold schedStepP schedStep; rw [if_pos (Or.inl rfl)]
      rw [hstep] at hrw
      have hposq : 0 < q.1 := by
        have : q ∈ schedPairs now s := by rw [hq]; simp
        exact hpos q this
      have hposr : ∀ p ∈ rest, 0 < p.1 := by
        intro p hp
        have : p ∈ schedPairs now s := by rw [hq]; simp [hp]
        exact hpos p this
      obtain ⟨h0, hle, hall, hat⟩ := schedFold_go rest (q.1, some q.2)
        hposr hposq
      have hresult : ∃ p ∈ schedPairs now s,
          nextExecution s now = (p.1, some p.2) := by
        rcases hat with heq | ⟨p, hmem, heq⟩
        · exact ⟨q, by rw [hq]; simp, by rw [hrw, heq]⟩
        · exact ⟨p, by rw [hq]; simp [hmem], by rw [hrw, heq]⟩
      obtain ⟨p, hpmem, hpeq⟩ := hresult
      have hmemd := (mem_schedPairs now s p).mp hpmem
      have hr1 : rest.foldl schedStepP (q.1, some q.2) = (p.1, some p.2) := by
        rw [← hrw, hpeq]
      rw [hr1] at hle hall
      have hpnotpaused : s.paused p.2.name = false := by
        cases hpb : s.paused p.2.name
        · rfl
        · exfalso
          have hmem2 := hmemd.2
          unfold candidateTimes at hmem2
          rw [if_pos hpb] at hmem2
          simp at hmem2
      refine ⟨p.1, p.2, hpeq, hmemd.1, hpnotpaused, hmemd.2, ?_⟩
      intro c2 hc2 t2 ht2
      have hp2 : (t2, c2) ∈ schedPairs now s :=
        (mem_schedPairs now s (t2, c2)).mpr ⟨hc2, ht2⟩
      rw [hq] at hp2
      rcases List.mem_cons.mp hp2 with heq2 | hmem2
      · have hqt : q.1 = t2 := by rw [← heq2]
        calc p.1 ≤ q.1 := hle
          _ = t2 := hqt
      · exact hall (t2, c2) hmem2

/-- Witness for C1: a one-command state with a never-run interval command at
`now = 1000` — the hypotheses hold and a least candidate is returned. -/
theorem nextExecution_spec_witness :
    ∃ t c,
      nextExecution ⟨[⟨"tick", [], 60, false, 0⟩], fun _ => false⟩ 1000 =
          (t, some c) ∧
        c ∈ ([⟨"tick", [], 60, false, 0⟩] : List ScheduledCommand) ∧
        (fun _ => false : String → Bool) c.name = false ∧
        t ∈ candidateTimes 1000 (fun _ => false) c ∧
        ∀ c2 ∈ ([⟨"tick", [], 60, false, 0⟩] : List ScheduledCommand),
          ∀ t2 ∈ candidateTimes 1000 (fun _ => false) c2, t ≤ t2 :=
  (nextExecution_spec ⟨[⟨"tick", [], 60, false, 0⟩], fun _ => false⟩ 1000
    (by decide)).2.2.2.2.2 ⟨⟨"tick", [], 60, false, 0⟩, by simp, by decide⟩

lemma findLast_eq_none_iff (n : String) (l : List ScheduledCommand) :
    findLast n l = none ↔ ∀ o ∈ l, o.name ≠ n := by
  induction l with
  | nil => simp [findLast]
  | cons c rest ih =>
    unfold findLast
    cases hr : findLast n rest with
    | some r =>
      have hrn := ih.not
      constructor
      · intro h; simp at h
      · intro h
        exfalso
        have : findLast n rest = none := by
          rw [ih]; intro o ho; exact h o (List.mem_cons_of_mem c ho)
        rw [hr] at this; simp at this
    | none =>
      have hrest := ih.mp hr
      by_cases hc : c.name = n
      · rw [if_pos hc]
        constructor
        · intro h; simp at h
        · intro h; exact absurd hc (h c (List.mem_cons_self c rest))
      · rw [if_neg hc]
        constructor
        · intro _ o ho
          rcases List.mem_cons.mp ho with rfl | ho2
          · exact hc
          · exact hrest o ho2
        · intro _; rfl

lemma findLast_some (n : String) (l : List ScheduledCommand) :
    ∀ r, findLast n l = some r → r ∈ l ∧ r.name = n := by
  induction l with
  | nil => intro r h; simp [findLast] at h
  | cons c rest ih =>
    intro r h
    unfold findLast at h
    cases hr : findLast n rest with
    | some r2 =>
      rw [hr] at h
      cases h
      obtain ⟨h1, h2⟩ := ih _ hr
      exact ⟨List.mem_cons_of_mem c h1, h2⟩
    | none =>
      rw [hr] at h
      by_cases hc : c.name = n
      · rw [if_pos hc] at h
        cases h
        exact ⟨List.mem_cons_self c rest, hc⟩
      · rw [if_neg hc] at h
        simp at h

lemma findLast_unique (n : String) (l : List ScheduledCommand)
    (o : ScheduledCommand) (hnd : (l.map fun c => c.name).Nodup)
    (ho : o ∈ l) (hon : o.name = n) : findLast n l = some o := by
  induction l with
  | nil => simp at ho
  | cons c rest ih =>
    rw [List.map_cons, List.nodup_cons] at hnd
    unfold findLast
    rcases List.mem_cons.mp ho with rfl | ho2
    · have hnone : findLast n rest = none := by
        rw [findLast_eq_none_iff]
        intro o2 ho2 h2
        exact hnd.1 (List.mem_map.mpr ⟨o2, ho2, by rw [h2, ← hon]⟩)
      rw [hnone, if_pos hon]
    · rw [ih hnd.2 ho2]

lemma findLast_isNone_eq_all (n : String) (l : List ScheduledCommand) :
    (findLast n l).isNone = (l.all fun o => !(o.name == n)) := by
  cases hr : findLast n l with
  | none =>
    have hall := (findLast_eq_none_iff n l).mp hr
    simp only [Option.isNone_none]
    symm
    simp only [List.all_eq_true]
    intro o ho
    simp [hall o ho]
  | some r =>
    obtain ⟨h1, h2⟩ := findLast_some n l r hr
    simp only [Option.isNone_some]
    symm
    rw [List.all_eq_false]
    exact ⟨r, h1, by simp [h2]⟩

lemma updatePausedNames_char (old : List ScheduledCommand)
    (cmds : List ScheduledCommand) :
    ∀ (p : String → Bool) (n : String),
    updatePausedNames old cmds p n =
      (p n || cmds.any fun c =>
        c.initialPaused && (c.name == n) && (findLast c.name old).isNone) := by
  induction cmds with
  | nil => intro p n; simp [updatePausedNames]
  | cons c rest ih =>
    intro p n
    unfold updatePausedNames
    rw [ih, List.any_cons]
    by_cases hf : (findLast c.name old).isSome
    · rw [if_pos hf]
      have hne : (findLast c.name old).isNone = false := by
        cases hfl : findLast c.name old
        · rw [hfl] at hf; simp at hf
        · simp
      simp [hne]
    · rw [if_neg hf]
      have hnone : (findLast c.name old).isNone = true := by
        cases hfl : findLast c.name old
        · rfl
        · rw [hfl] at hf; simp at hf
      by_cases hip : c.initialPaused = true
      · rw [if_pos hip]
        by_cases hn : n = c.name
        · have hb : (c.name == n) = true := by simp [hn]
          simp [hn, hip, hnone, hb]
        · have hb : (c.name == n) = false := by
            simp only [beq_eq_false_iff_ne, ne_eq]
            exact fun hcn => hn hcn.symm
          simp [hn, hip, hnone, hb]
      · rw [if_neg hip]
        have hipf : c.initialPaused = false := by
          cases hip2 : c.initialPaused
          · rfl
          · exact absurd hip2 hip
        simp [hipf]

lemma carryLastRun_get? (old : List ScheduledCommand)
    (cmds : List ScheduledCommand) (i : Nat) :
    (carryLastRun old cmds)[i]? = cmds[i]?.map fun c =>
      match findLast c.name old with
      | some o => { c with lastRun := o.lastRun }
      | none => c := by
  unfold carryLastRun
  rw [List.getElem?_map]

/-- C6: `updateCommands` replaces the collection wholesale (same length, in
order); an incoming command whose name is absent from the old collection is
kept verbatim — in particular its `initiallyPaused` flag is honored into the
paused set exactly for such genuinely new commands; an incoming command
matched by name to an old command (names being unique) inherits that
command's `lastRun`; pause state is otherwise unchanged; and the empty
replacement list clears the schedule so `nextExecution` returns
`(0, none)`. -/
theorem updateCommands_spec (s : SchedulerState)
    (cmds : List ScheduledCommand)
    (hnd : (s.commands.map fun c => c.name).Nodup) :
    (UpdateCommands s cmds).commands.length = cmds.length ∧
    (∀ (i : Nat) (c : ScheduledCommand), cmds[i]? = some c →
      (∀ o ∈ s.commands, o.name ≠ c.name) →
      (UpdateCommands s cmds).commands[i]? = some c) ∧
    (∀ (i : Nat) (c o : ScheduledCommand), cmds[i]? = some c →
      o ∈ s.commands → o.name = c.name →
      (UpdateCommands s cmds).commands[i]? =
        some { c with lastRun := o.lastRun }) ∧
    (∀ n, (UpdateCommands s cmds).paused n =
      (s.paused n || cmds.any fun c =>
        c.initialPaused && (c.name == n) &&
          (s.commands.all fun o => !(o.name == c.name)))) ∧
    (UpdateCommands s []).commands = [] ∧
    (∀ now, nextExecution (UpdateCommands s []) now = (0, none)) := by
  refine ⟨?_, ?_, ?_, ?_, rfl, ?_⟩
  · unfold UpdateCommands carryLastRun
    exact List.length_map _ _
  · intro i c hc hnew
    rw [show (UpdateCommands s cmds).commands = carryLastRun s.commands cmds
      from rfl, carryLastRun_get?, hc]
    have : findLast c.name s.commands = none :=
      (findLast_eq_none_iff c.name s.commands).mpr hnew
    simp [this]
  · intro i c o hc ho hon
    rw [show (UpdateCommands s cmds).commands = carryLastRun s.commands cmds
      from rfl, carryLastRun_get?, hc]
    have : findLast c.name s.commands = some o :=
      findLast_unique c.name s.commands o hnd ho hon
    simp [this]
  · intro n
    rw [show (UpdateCommands s cmds).paused =
      updatePausedNames s.commands cmds s.paused from rfl,
      updatePausedNames_char]
    have hfn : (fun c : ScheduledCommand =>
        c.initialPaused && (c.name == n) &&
          (findLast c.name s.commands).isNone) =
        fun c : ScheduledCommand =>
          c.initialPaused && (c.name == n) &&
            (s.commands.all fun o => !(o.name == c.name)) := by
      funext c
      rw [findLast_isNone_eq_all]
    rw [hfn]
  · intro now
    simp [nextExecution, UpdateCommands, carryLastRun]

/-- Witness for C6 on a concrete reload: the old state has one unpaused
command "a" with `lastRun = 77`; the incoming list re-sends "a" (fresh
`lastRun = 0`) and adds a new command "b" with `initiallyPaused`.  The
retained command gets `lastRun = 77` back, the new one is kept verbatim, and
"b" enters the paused set. -/
theorem updateCommands_spec_witness :
    (UpdateCommands ⟨[⟨"a", [], 5, false, 77⟩], fun _ => false⟩
        [⟨"a", [], 5, false, 0⟩, ⟨"b", [], 3, true, 0⟩]).commands[0]? =
      some ⟨"a", [], 5, false, 77⟩ ∧
    (UpdateCommands ⟨[⟨"a", [], 5, false, 77⟩], fun _ => false⟩
        [⟨"a", [], 5, false, 0⟩, ⟨"b", [], 3, true, 0⟩]).commands[1]? =
      some ⟨"b", [], 3, true, 0⟩ ∧
    (UpdateCommands ⟨[⟨"a", [], 5, false, 77⟩], fun _ => false⟩
        [⟨"a", [], 5, false, 0⟩, ⟨"b", [], 3, true, 0⟩]).paused "b" = true :=
  ⟨(updateCommands_spec ⟨[⟨"a", [], 5, false, 77⟩], fun _ => false⟩
      [⟨"a", [], 5, false, 0⟩, ⟨"b", [], 3, true, 0⟩] (by decide)).2.2.1
      0 ⟨"a", [], 5, false, 0⟩ ⟨"a", [], 5, false, 77⟩ rfl (by decide)
      rfl,
    (updateCommands_spec ⟨[⟨"a", [], 5, false, 77⟩], fun _ => false⟩
      [⟨"a", [], 5, false, 0⟩, ⟨"b", [], 3, true, 0⟩] (by decide)).2.1
      1 ⟨"b", [], 3, true, 0⟩ rfl (by decide),
    by
      rw [(updateCommands_spec ⟨[⟨"a", [], 5, false, 77⟩], fun _ => false⟩
        [⟨"a", [], 5, false, 0⟩, ⟨"b", [], 3, true, 0⟩] (by decide)).2.2.2.1
        "b"]
      decide⟩

end Pako.Scheduler

namespace Pako.Bot

lemma validateArgument_ne_empty (arg : ArgumentDef) (input : String)
    (e : String) (h : validateArgument arg input = some e) : e ≠ "" := by
  unfold validateArgument at h
  split_ifs at h
  all_goals cases h
  all_goals try decide
  intro h0
  have hlen := congrArg String.length h0
  have h22 : ("Please select one of: " : String).length = 22 := rfl
  have h00 : ("" : String).length = 0 := rfl
  rw [String.length_append, h22, h00] at hlen
  omega

lemma autoResolved_iff (a : ArgumentDef) :
    autoResolved a = true ↔ a.default ≠ "" ∧ a.required = false := by
  unfold autoResolved
  cases hr : a.required <;> simp [bne_iff_ne]

/-- C4 counterexample: a choice-kind argument whose `choices` list is empty
accepts the input "x" even though "x" is not a member of the (empty) choices,
because the code guards the membership test with `len(arg.Choices) > 0`. -/
theorem validateArgument_choice_counterexample :
    validateArgument ⟨"m", "", false, "choice", [], "", false⟩ "x" = none ∧
    "x" ∉ (⟨"m", "", false, "choice", [], "", false⟩ : ArgumentDef).choices := by
  constructor
  · decide
  · decide

/-- C4 (amended): validation per the table — a required argument with
whitespace-only input errors with the "field is required" message; otherwise
the literally-empty input is accepted with no kind check; for non-empty input
an int argument is accepted iff `strconv.Atoi` succeeds, a bool argument iff
its trimmed, lowered form is one of true/false/yes/no/1/0, and a choice
argument iff its choices list is empty or the input is an exact case-sensitive
member of it. -/
theorem validateArgument_spec (arg : ArgumentDef) (input : String) :
    (arg.required = true → trimSpace input = "" →
      validateArgument arg input = some "This field is required") ∧
    (¬(arg.required = true ∧ trimSpace input = "") → input = "" →
      validateArgument arg input = none) ∧
    (¬(arg.required = true ∧ trimSpace input = "") → input ≠ "" →
      arg.type = "int" →
      (validateArgument arg input = none ↔ atoiOk input = true)) ∧
    (¬(arg.required = true ∧ trimSpace input = "") → input ≠ "" →
      arg.type = "bool" →
      (validateArgument arg input = none ↔
        toLowerGo (trimSpace input) ∈ boolWords)) ∧
    (¬(arg.required = true ∧ trimSpace input = "") → input ≠ "" →
      arg.type = "choice" →
      (validateArgument arg input = none ↔
        (arg.choices = [] ∨ input ∈ arg.choices))) := by
  refine ⟨?_, ?_, ?_, ?_, ?_⟩
  · intro h1 h2
    unfold validateArgument
    rw [if_pos ⟨h1, h2⟩]
  · intro h h2
    unfold validateArgument
    rw [if_neg h, if_pos h2]
  · intro h h2 ht
    unfold validateArgument
    rw [if_neg h, if_neg h2, if_pos ht]
    cases hat : atoiOk input <;> simp [hat]
  · intro h h2 ht
    unfold validateArgument
    have hni : ¬ arg.type = "int" := by rw [ht]; decide
    rw [if_neg h, if_neg h2, if_neg hni, if_pos ht]
    by_cases hm : toLowerGo (trimSpace input) ∈ boolWords
    · rw [if_pos hm]; simp [hm]
    · rw [if_neg hm]; simp [hm]
  · intro h h2 ht
    unfold validateArgument
    have hni : ¬ arg.type = "int" := by rw [ht]; decide
    have hnb : ¬ arg.type = "bool" := by rw [ht]; decide
    rw [if_neg h, if_neg h2, if_neg hni, if_neg hnb, if_pos ht]
    by_cases hc : 0 < arg.choices.length ∧ input ∉ arg.choices
    · rw [if_pos hc]
      simp only [reduceCtorEq, false_iff]
      rintro (h0 | hm)
      · rw [h0] at hc; simp at hc
      · exact hc.2 hm
    · rw [if_neg hc]
      simp only [true_iff]
      push_neg at hc
      by_cases hlen : 0 < arg.choices.length
      · exact Or.inr (hc hlen)
      · exact Or.inl (by
          rw [← List.length_eq_zero]
          omega)

/-- Witness for C4's amended theorem: a non-required choice argument over
["a", "b"] with input "b" hits the membership rule. -/
theorem validateArgument_spec_witness :
    validateArgument ⟨"c", "", false, "choice", ["a", "b"], "", false⟩ "b" =
        none ↔
      ((["a", "b"] : List String) = [] ∨ "b" ∈ (["a", "b"] : List String)) :=
  (validateArgument_spec ⟨"c", "", false, "choice", ["a", "b"], "", false⟩
    "b").2.2.2.2 (by decide) (by decide) rfl

lemma buildToPrompt_eq_filter (l : List ArgumentDef) :
    buildToPrompt l = l.filter fun a => !(autoResolved a) := by
  induction l with
  | nil => rfl
  | cons a rest ih =>
    unfold buildToPrompt
    rw [List.filter_cons]
    by_cases h : autoResolved a = true
    · rw [if_pos h, ih]
      simp [h]
    · have hf : autoResolved a = false := by
        cases h2 : autoResolved a
        · rfl
        · exact absurd h2 h
      rw [if_neg h, ih]
      simp [hf]

lemma buildCollected_not_mem (l : List ArgumentDef) (n : String)
    (hno : ∀ a ∈ l, a.name ≠ n) :
    ∀ m : String → Option String, buildCollected l m n = m n := by
  induction l with
  | nil => intro m; rfl
  | cons a rest ih =>
    intro m
    unfold buildCollected
    have hrest : ∀ x ∈ rest, x.name ≠ n :=
      fun x hx => hno x (List.mem_cons_of_mem a hx)
    by_cases ha : autoResolved a = true
    · rw [if_pos ha, ih hrest]
      unfold setKey
      rw [if_neg fun hn => hno a (List.mem_cons_self a rest) hn.symm]
    · rw [if_neg ha, ih hrest]

lemma buildCollected_mem (l : List ArgumentDef) (a : ArgumentDef)
    (hnd : (l.map fun x => x.name).Nodup) (ha : a ∈ l)
    (hauto : autoResolved a = true) :
    ∀ m : String → Option String, buildCollected l m a.name = some a.default := by
  induction l with
  | nil => simp at ha
  | cons b rest ih =>
    intro m
    rw [List.map_cons, List.nodup_cons] at hnd
    unfold buildCollected
    rcases List.mem_cons.mp ha with rfl | ha2
    · rw [if_pos hauto]
      rw [buildCollected_not_mem rest a.name
        (fun x hx hxn => hnd.1 (List.mem_map.mpr ⟨x, hx, hxn⟩))]
      unfold setKey
      rw [if_pos rfl]
    · by_cases hb : autoResolved b = true
      · rw [if_pos hb]
        exact ih hnd.2 ha2 _
      · rw [if_neg hb]
        exact ih hnd.2 ha2 _

/-- C3 counterexample: `time.Duration` is signed, and the code only falls
back to the store default when the override is exactly zero — with the
negative override -1 (which is not positive), the session's effective
timeout is -1, not the store-wide default 120. -/
theorem startSession_timeout_counterexample :
    ¬ 0 < (⟨[], -1⟩ : YAMLCommand).argumentTimeout ∧
    (StartSession ⟨fun _ => none, 120⟩ 0 0 ⟨[], -1⟩).2.timeoutDur ≠
      (⟨fun _ => none, 120⟩ : ArgumentCollector).defaultTimeout := by
  constructor
  · decide
  · decide

/-- C3 (amended): `startSession` installs a brand-new session for the chat
key (discarding whatever was there), leaves other chats alone; every spec
with a non-empty default and `required = false` is pre-resolved into
`collected` with its default verbatim and never appears in the to-prompt
list; the to-prompt list is the remaining specs in original order with the
cursor at 0; and the effective timeout is the override if nonzero (not: if
positive), else the store-wide default. -/
theorem startSession_spec (c : ArgumentCollector) (now : Nat) (chatID : Int)
    (cmd : YAMLCommand)
    (hnd : (cmd.arguments.map fun a => a.name).Nodup) :
    (StartSession c now chatID cmd).1.sessions chatID =
        some (StartSession c now chatID cmd).2 ∧
    (∀ k : Int, k ≠ chatID →
      (StartSession c now chatID cmd).1.sessions k = c.sessions k) ∧
    (StartSession c now chatID cmd).1.defaultTimeout = c.defaultTimeout ∧
    (∀ a ∈ cmd.arguments, a.default ≠ "" → a.required = false →
      (StartSession c now chatID cmd).2.collected a.name = some a.default) ∧
    (StartSession c now chatID cmd).2.arguments =
      cmd.arguments.filter (fun a => !(autoResolved a)) ∧
    (∀ a ∈ (StartSession c now chatID cmd).2.arguments,
      ¬(a.default ≠ "" ∧ a.required = false)) ∧
    (StartSession c now chatID cmd).2.currentIdx = 0 ∧
    (StartSession c now chatID cmd).2.command = cmd ∧
    (StartSession c now chatID cmd).2.startedAt = now ∧
    (cmd.argumentTimeout ≠ 0 →
      (StartSession c now chatID cmd).2.timeoutDur = cmd.argumentTimeout) ∧
    (cmd.argumentTimeout = 0 →
      (StartSession c now chatID cmd).2.timeoutDur = c.defaultTimeout) := by
  refine ⟨?_, ?_, ?_, ?_, ?_, ?_, ?_, ?_, ?_, ?_, ?_⟩
  · simp [StartSession, setKey]
  · intro k hk
    simp [StartSession, setKey, hk]
  · rfl
  · intro a ha hd hr
    have hauto : autoResolved a = true := (autoResolved_iff a).mpr ⟨hd, hr⟩
    exact buildCollected_mem cmd.arguments a hnd ha hauto _
  · exact buildToPrompt_eq_filter cmd.arguments
  · intro a ha
    rw [show (StartSession c now chatID cmd).2.arguments =
      buildToPrompt cmd.arguments from rfl, buildToPrompt_eq_filter] at ha
    have := (List.mem_filter.mp ha).2
    intro hcon
    rw [(autoResolved_iff a).mpr hcon] at this
    simp at this
  · rfl
  · rfl
  · rfl
  · intro h
    simp [StartSession, h]
  · intro h
    simp [StartSession, h]

/-- Witness for C3's amended theorem: a command with an auto-resolvable
"model" argument (default "gpt-4", not required) and a required "q" argument,
no timeout override — "model" is pre-collected and the timeout falls back to
the store default. -/
theorem startSession_spec_witness :
    (StartSession ⟨fun _ => none, 120⟩ 0 7
        ⟨[⟨"model", "", false, "string", [], "gpt-4", false⟩,
          ⟨"q", "", true, "string", [], "", false⟩], 0⟩).2.collected "model" =
      some "gpt-4" ∧
    (StartSession ⟨fun _ => none, 120⟩ 0 7
        ⟨[⟨"model", "", false, "string", [], "gpt-4", false⟩,
          ⟨"q", "", true, "string", [], "", false⟩], 0⟩).2.timeoutDur = 120 :=
  ⟨(startSession_spec ⟨fun _ => none, 120⟩ 0 7
      ⟨[⟨"model", "", false, "string", [], "gpt-4", false⟩,
        ⟨"q", "", true, "string", [], "", false⟩], 0⟩ (by decide)).2.2.2.1
      ⟨"model", "", false, "string", [], "gpt-4", false⟩ (by decide)
      (by decide) rfl,
    (startSession_spec ⟨fun _ => none, 120⟩ 0 7
      ⟨[⟨"model", "", false, "string", [], "gpt-4", false⟩,
        ⟨"q", "", true, "string", [], "", false⟩], 0⟩ (by decide)).2.2.2.2.2.2.2.2.2.2
      rfl⟩

/-- C2: `submit` — with no stored session, or with a stored session whose
elapsed time exceeds its timeout, it returns the generic no-session message
and the store is unchanged (the two cases are indistinguishable); with a live
session and a cursor spec, a failed validation returns a non-empty reason and
changes nothing, while a successful validation stores the raw input under the
spec's name, advances the cursor by exactly one, returns the empty string,
and touches nothing else. -/
theorem processInput_spec (c : ArgumentCollector) (now : Nat) (chatID : Int)
    (input : String) :
    (c.sessions chatID = none →
      ProcessInput c now chatID input =
        ("No active argument collection session.", c)) ∧
    (∀ s : ArgumentSession, c.sessions chatID = some s →
      s.IsExpired now = true →
      ProcessInput c now chatID input =
        ("No active argument collection session.", c)) ∧
    (∀ (s : ArgumentSession) (arg : ArgumentDef) (err : String),
      c.sessions chatID = some s → s.IsExpired now = false →
      s.CurrentArg = some arg → validateArgument arg input = some err →
      ProcessInput c now chatID input = (err, c) ∧ err ≠ "") ∧
    (∀ (s : ArgumentSession) (arg : ArgumentDef),
      c.sessions chatID = some s → s.IsExpired now = false →
      s.CurrentArg = some arg → validateArgument arg input = none →
      (ProcessInput c now chatID input).1 = "" ∧
      ∃ s2 : ArgumentSession,
        (ProcessInput c now chatID input).2.sessions chatID = some s2 ∧
        s2.collected arg.name = some input ∧
        (∀ k : String, k ≠ arg.name → s2.collected k = s.collected k) ∧
        s2.currentIdx = s.currentIdx + 1 ∧
        s2.arguments = s.arguments ∧ s2.command = s.command ∧
        s2.startedAt = s.startedAt ∧ s2.timeoutDur = s.timeoutDur ∧
        (∀ k2 : Int, k2 ≠ chatID →
          (ProcessInput c now chatID input).2.sessions k2 = c.sessions k2) ∧
        (ProcessInput c now chatID input).2.defaultTimeout =
          c.defaultTimeout) := by
  refine ⟨?_, ?_, ?_, ?_⟩
  · intro h
    unfold ProcessInput
    rw [h]
  · intro s hs hexp
    unfold ProcessInput
    simp [hs, hexp]
  · intro s arg err hs hexp harg hval
    refine ⟨?_, validateArgument_ne_empty arg input err hval⟩
    unfold ProcessInput
    simp [hs, hexp, harg, hval]
  · intro s arg hs hexp harg hval
    have hP : ProcessInput c now chatID input =
        ("", { c with sessions := setKey c.sessions chatID (some
          { s with
            collected := setKey s.collected arg.name (some input)
            currentIdx := s.currentIdx + 1 }) }) := by
      unfold ProcessInput
      simp [hs, hexp, harg, hval]
    rw [hP]
    refine ⟨rfl,
      { s with
        collected := setKey s.collected arg.name (some input)
        currentIdx := s.currentIdx + 1 },
      by simp [setKey], by simp [setKey], ?_, rfl, rfl, rfl, rfl, rfl, ?_, rfl⟩
    · intro k hk
      simp [setKey, hk]
    · intro k2 hk2
      simp [setKey, hk2]

/-- Witness for C2 on the concrete store `storeN` (one live session at chat
key 1 prompting for the required int "n"): submitting "42" at instant 5
succeeds, stores the value, and advances the cursor to 1. -/
theorem processInput_spec_witness :
    (ProcessInput storeN 5 1 "42").1 = "" ∧
    ∃ s2 : ArgumentSession,
      (ProcessInput storeN 5 1 "42").2.sessions 1 = some s2 ∧
      s2.collected argN.name = some "42" ∧
      (∀ k : String, k ≠ argN.name →
        s2.collected k = sessionN.collected k) ∧
      s2.currentIdx = sessionN.currentIdx + 1 ∧
      s2.arguments = sessionN.arguments ∧ s2.command = sessionN.command ∧
      s2.startedAt = sessionN.startedAt ∧
      s2.timeoutDur = sessionN.timeoutDur ∧
      (∀ k2 : Int, k2 ≠ 1 →
        (ProcessInput storeN 5 1 "42").2.sessions k2 = storeN.sessions k2) ∧
      (ProcessInput storeN 5 1 "42").2.defaultTimeout =
        storeN.defaultTimeout :=
  (processInput_spec storeN 5 1 "42").2.2.2 sessionN argN rfl (by decide)
    (by decide) (by decide)

/-- C8: `completeSession` with a stored session returns its collected map
and the original command reference and removes the session (other chats
untouched); with no stored session it returns `(none, none)` and changes
nothing; consequently a second consecutive call always returns
`(none, none)`. -/
theorem completeSession_spec (c : ArgumentCollector) (chatID : Int) :
    (c.sessions chatID = none →
      CompleteSession c chatID = ((none, none), c)) ∧
    (∀ s : ArgumentSession, c.sessions chatID = some s →
      (CompleteSession c chatID).1 = (some s.collected, some s.command) ∧
      (CompleteSession c chatID).2.sessions chatID = none ∧
      (∀ k : Int, k ≠ chatID →
        (CompleteSession c chatID).2.sessions k = c.sessions k)) ∧
    (CompleteSession (CompleteSession c chatID).2 chatID).1 =
      (none, none) := by
  refine ⟨?_, ?_, ?_⟩
  · intro h
    unfold CompleteSession
    rw [h]
  · intro s hs
    refine ⟨?_, ?_, ?_⟩
    · unfold CompleteSession
      simp [hs]
    · unfold CompleteSession
      simp [hs, setKey]
    · intro k hk
      unfold CompleteSession
      simp [hs, setKey, hk]
  · cases hs : c.sessions chatID with
    | none =>
      unfold CompleteSession
      simp [hs]
    | some s =>
      unfold CompleteSession
      simp [hs, setKey]

/-- Witness for C8 on `storeN`: completing chat 1 yields the session's
collected map and command, and completing again yields `(none, none)`. -/
theorem completeSession_spec_witness :
    ((CompleteSession storeN 1).1 =
        (some sessionN.collected, some sessionN.command) ∧
      (CompleteSession storeN 1).2.sessions 1 = none ∧
      (∀ k : Int, k ≠ 1 →
        (CompleteSession storeN 1).2.sessions k = storeN.sessions k)) ∧
    (CompleteSession (CompleteSession storeN 1).2 1).1 = (none, none) :=
  ⟨(completeSession_spec storeN 1).2.1 sessionN rfl,
    (completeSession_spec storeN 1).2.2⟩

/-- C9: expiry is not checked by `completeSession` — for a stored session
whose elapsed time exceeds its timeout, `getSession` reports it absent (and,
being read-only, leaves the store untouched), yet `completeSession` on the
same store still removes and returns the expired session's collected map and
command reference. -/
theorem getSession_expired_spec (c : ArgumentCollector) (now : Nat)
    (chatID : Int) (s : ArgumentSession) (hs : c.sessions chatID = some s)
    (hexp : s.IsExpired now = true) :
    GetSession c now chatID = none ∧
    (CompleteSession c chatID).1 = (some s.collected, some s.command) ∧
    (CompleteSession c chatID).2.sessions chatID = none := by
  refine ⟨?_, ?_, ?_⟩
  · unfold GetSession
    simp [hs, hexp]
  · unfold CompleteSession
    simp [hs]
  · unfold CompleteSession
    simp [hs, setKey]

/-- Witness for C9: at instant 200 the fixture session (timeout 120, started
at 0) is expired; `getSession` hides it while `completeSession` still
returns it. -/
theorem getSession_expired_spec_witness :
    GetSession storeN 200 1 = none ∧
    (CompleteSession storeN 1).1 =
      (some sessionN.collected, some sessionN.command) ∧
    (CompleteSession storeN 1).2.sessions 1 = none :=
  getSession_expired_spec storeN 200 1 sessionN rfl (by decide)

/-- C10: `submit` on a live, non-expired session whose cursor has reached
the end of the to-prompt list returns the empty string — the success value —
and leaves the store entirely unchanged: the input is silently dropped. -/
theorem processInput_complete_spec (c : ArgumentCollector) (now : Nat)
    (chatID : Int) (input : String) (s : ArgumentSession)
    (hs : c.sessions chatID = some s) (hlive : s.IsExpired now = false)
    (hdone : s.arguments.length ≤ s.currentIdx) :
    ProcessInput c now chatID input = ("", c) := by
  have harg : s.CurrentArg = none := by
    unfold ArgumentSession.CurrentArg
    rw [if_pos hdone]
  unfold ProcessInput
  simp [hs, hlive, harg]

/-- Witness for C10 on `storeDone` (its one session has cursor 1 past its
single to-prompt argument): any input at instant 5 returns success and the
store is unchanged. -/
theorem processInput_complete_spec_witness :
    ProcessInput storeDone 5 1 "ignored" = ("", storeDone) :=
  processInput_complete_spec storeDone 5 1 "ignored" sessionDone rfl
    (by decide) (by decide)

end Pako.Bot
